import Mathlib

/-!
Verification development for the Code2MarkDown repository.

The Python sources (src/config.py, src/utils.py, src/code2md.py) are
shallowly embedded below.  Python strings are modelled as Lean strings
(lists of unicode code points), the filesystem is modelled as a finite
tree of named files and directories, and the binary64 float used by
format_file_size is modelled exactly as a dyadic rational num / 2 ^ exp
(the only arithmetic performed on it is division by 1024, which is exact
in binary64 for the sizes under consideration).  Effectful operations
(stat, open, decode) are modelled by oracle fields of a file model, and
per-project exceptions by an Except-valued environment.
-/

/-! ### Basic character and string helpers -/

/-- Lexicographic strict comparison of character lists by code point.
This is the comparison Python uses on strings. -/
def charListLt : List Char → List Char → Bool
  | [], [] => false
  | [], _ :: _ => true
  | _ :: _, [] => false
  | a :: as, b :: bs => a.toNat < b.toNat || (a.toNat == b.toNat && charListLt as bs)

/-- Python str.lower, restricted to the ASCII case mapping (all names and
extensions appearing in the claims are ASCII). -/
def strLower (s : String) : String := String.mk (s.data.map Char.toLower)

/-- Index of the last occurrence of a dot in a character list, if any. -/
def rfindDot : List Char → Option Nat
  | [] => none
  | c :: cs =>
    match rfindDot cs with
    | some i => some (i + 1)
    | none => if c == '.' then some 0 else none

/-- Python pathlib suffix of a file name: the part from the last dot on,
provided that dot is neither the first nor the last character; otherwise
the empty string. -/
def pathSuffix (name : String) : String :=
  match rfindDot name.data with
  | some i => if 0 < i && i < name.data.length - 1 then String.mk (name.data.drop i) else ""
  | none => ""

/-- Core of fnmatch on character lists, with a fuel argument; star matches
any sequence, question mark any single character, and other characters
literally.  Character classes are omitted: none of the ignore patterns of
the configuration contains one.  The fuel pattern.length + string.length + 1
always suffices, since every step shortens the pattern or the string. -/
def fnGo : Nat → List Char → List Char → Bool
  | 0, p, s => p.isEmpty && s.isEmpty
  | _ + 1, [], s => s.isEmpty
  | f + 1, '*' :: ps, s =>
    fnGo f ps s ||
      (match s with
       | [] => false
       | _ :: cs => fnGo f ('*' :: ps) cs)
  | f + 1, '?' :: ps, s =>
    (match s with
     | [] => false
     | _ :: cs => fnGo f ps cs)
  | f + 1, p :: ps, s =>
    (match s with
     | [] => false
     | c :: cs => p == c && fnGo f ps cs)

/-- Python fnmatch.fnmatch on a POSIX filesystem (case preserved). -/
def fnmatchName (name pat : String) : Bool :=
  fnGo (pat.data.length + name.data.length + 1) pat.data name.data

/-! ### Configuration (src/config.py) -/

/-- Embedding of the Config dataclass.  The extension and ignore sets are
carried as lists; only membership is ever consulted. -/
structure Config where
  code_extensions : List String
  project_extensions : List String
  ignore_files : List String
  ignore_dirs : List String
  max_file_size : Nat
  include_file_content : Bool
  include_file_stats : Bool
  include_project_structure : Bool

/-- The default configuration built by Config.__post_init__. -/
def defaultConfig : Config where
  code_extensions :=
    [".c", ".h", ".cpp", ".hpp", ".cc", ".cxx",
     ".py", ".java", ".js", ".ts", ".cs",
     ".go", ".rs", ".php", ".rb", ".swift",
     ".kt", ".scala", ".clj", ".hs", ".ml",
     ".asm", ".s", ".a51"]
  project_extensions :=
    [".uvproj", ".uvopt", ".uvgui", ".sln", ".vcxproj",
     ".pro", ".qbs", ".cmake", ".mk", ".makefile",
     ".json", ".xml", ".yml", ".yaml", ".toml",
     ".cfg", ".conf", ".ini"]
  ignore_files :=
    [".DS_Store", "Thumbs.db", ".gitignore",
     "__pycache__", "*.pyc", "*.pyo", "*.pyd",
     ".vscode", ".idea", ".vs"]
  ignore_dirs :=
    ["__pycache__", ".git", ".svn", ".hg",
     "node_modules", ".vscode", ".idea", ".vs",
     "bin", "obj", "build", "dist", "target"]
  max_file_size := 1024 * 1024
  include_file_content := true
  include_file_stats := true
  include_project_structure := true

/-! ### Filesystem model -/

/-- A filesystem subtree: a file with a name and a stat-reported byte size,
or a directory with a name and children in iteration order. -/
inductive FSTree where
  | file (name : String) (size : Nat)
  | dir (name : String) (children : List FSTree)

/-- Name of the entry at the root of a subtree. -/
def FSTree.name : FSTree → String
  | .file n _ => n
  | .dir n _ => n

/-- Whether the root of a subtree is a directory. -/
def FSTree.isDirNode : FSTree → Bool
  | .file _ _ => false
  | .dir _ _ => true

mutual

/-- All files contained in a subtree (the subtree itself included when it
is a file), as (name, size) pairs in depth-first iteration order. -/
def subtreeFiles : FSTree → List (String × Nat)
  | .file n sz => [(n, sz)]
  | .dir _ cs => subtreeFilesL cs

/-- All files contained in any of the given subtrees. -/
def subtreeFilesL : List FSTree → List (String × Nat)
  | [] => []
  | c :: cs => subtreeFiles c ++ subtreeFilesL cs

end

/-- Files yielded by path.rglob filtered with is_file: every file strictly
below the given directory, at any depth, with no directory excluded. -/
def rglobFiles : FSTree → List (String × Nat)
  | .file _ _ => []
  | .dir _ cs => subtreeFilesL cs

/-! ### src/utils.py -/

/-- Embedding of should_ignore_file: the file name is matched against each
ignore pattern with fnmatch. -/
def should_ignore_file (fileName : String) (ignore_patterns : List String) : Bool :=
  ignore_patterns.any fun pat => fnmatchName fileName pat

/-- Embedding of should_ignore_dir: exact membership of the directory name
in the ignore set. -/
def should_ignore_dir (dirName : String) (ignore_patterns : List String) : Bool :=
  ignore_patterns.contains dirName

/-- Exact model of the binary64 float carried by format_file_size: the
value num / 2 ^ exp.  Converting a byte count below 2 ^ 53 to float is
exact, and the only operation the code performs, division by 1024.0,
is exact scaling by 2 ^ 10. -/
structure Dyadic where
  num : Nat
  exp : Nat
deriving DecidableEq

/-- The loop guard size >= 1024.0. -/
def dyadicGe1024 (d : Dyadic) : Bool := decide (1024 * 2 ^ d.exp ≤ d.num)

/-- The loop step size /= 1024.0. -/
def dyadicDiv1024 (d : Dyadic) : Dyadic := ⟨d.num, d.exp + 10⟩

/-- Python int() applied to the nonnegative float. -/
def dyadicFloor (d : Dyadic) : Nat := d.num / 2 ^ d.exp

/-- Formatting with one decimal place, as the .1f format specifier renders
the nonnegative float value: the value times ten is rounded to the nearest
integer, ties to even, then printed as integer part, dot, digit. -/
def dyadicFmt1 (d : Dyadic) : String :=
  let t := d.num * 10
  let m := 2 ^ d.exp
  let q := t / m
  let r := t % m
  let rounded := if 2 * r < m then q else if m < 2 * r then q + 1 else if q % 2 = 0 then q else q + 1
  Nat.repr (rounded / 10) ++ "." ++ Nat.repr (rounded % 10)

/-- The size_names list of format_file_size. -/
def size_names : List String := ["B", "KB", "MB", "GB"]

/-- The while loop of format_file_size.  The loop runs while
size >= 1024 and i < 3; the fuel argument is 3 - i, so the bound i < 3 is
the bound fuel > 0 and both counters advance together. -/
def sizeLoopGo : Nat → Dyadic → Nat → Dyadic × Nat
  | 0, size, i => (size, i)
  | fuel + 1, size, i =>
    if dyadicGe1024 size then sizeLoopGo fuel (dyadicDiv1024 size) (i + 1) else (size, i)

/-- Embedding of format_file_size. -/
def format_file_size (size_bytes : Nat) : String :=
  if size_bytes = 0 then "0 B"
  else
    let p := sizeLoopGo 3 ⟨size_bytes, 0⟩ 0
    if p.2 = 0 then Nat.repr (dyadicFloor p.1) ++ " " ++ size_names.getD p.2 ""
    else dyadicFmt1 p.1 ++ " " ++ size_names.getD p.2 ""

/-- Characters removed by the control-character regular expression of
clean_text_content: the ranges 00-08, 0B-0C, 0E-1F and 7F-9F. -/
def isStrippedChar (c : Char) : Bool :=
  c.toNat ≤ 0x08 ||
  (0x0B ≤ c.toNat && c.toNat ≤ 0x0C) ||
  (0x0E ≤ c.toNat && c.toNat ≤ 0x1F) ||
  (0x7F ≤ c.toNat && c.toNat ≤ 0x9F)

/-- The replacements dict of clean_text_content.  The source literal lists
the key U+06B2 twice; a Python dict literal keeps the last value for a
duplicated key, so the constructed dict has these three entries. -/
def replacementTable : List (Char × String) :=
  [('ƣ', "函数名："), ('ܣ', "功能："), ('ڲ', "返回值：")]

/-- Python str.replace for a single-character pattern (every key of the
replacements dict is a single character): each occurrence of the character
is replaced by the replacement text. -/
def replaceAllChar (old : Char) (new : List Char) (s : List Char) : List Char :=
  s.flatMap fun c => if c == old then new else [c]

/-- Embedding of clean_text_content: strip the control characters, then
apply the replacement table in order. -/
def clean_text_content (s : String) : String :=
  if s.isEmpty then s
  else
    let stripped := s.data.filter fun c => !isStrippedChar c
    String.mk (replacementTable.foldl (fun acc p => replaceAllChar p.1 p.2.data acc) stripped)

/-- Oracle model of one file on disk, as read_file_safely observes it:
the stat result (none models an OSError inside get_file_info, which that
helper converts to size 0), an OSError raised when opening or reading
(none when the reads succeed), the outcome of a strict decode attempt per
encoding name, and the permissive utf-8 decode used as last resort. -/
structure FileM where
  statSize : Option Nat
  openError : Option String
  strictDecode : String → Option String
  lossyContent : String

/-- The encoding fallback order of read_file_safely. -/
def readEncodings : List String := ["utf-8", "gbk", "gb2312", "utf-16", "latin1"]

/-- Result of read_file_safely, instrumented with whether the file was
opened for content extraction. -/
structure ReadResult where
  content : String
  openedForContent : Bool
deriving DecidableEq

/-- Embedding of read_file_safely. -/
def read_file_safely (f : FileM) (max_size : Nat) : ReadResult :=
  let size := f.statSize.getD 0
  if max_size < size then
    ⟨"[文件过大 (" ++ format_file_size size ++ "), 跳过显示内容]", false⟩
  else
    match f.openError with
    | some e => ⟨"[无法读取文件: " ++ e ++ "]", true⟩
    | none =>
      match readEncodings.findSome? f.strictDecode with
      | some content => ⟨clean_text_content content, true⟩
      | none => ⟨clean_text_content f.lossyContent, true⟩

/-- Embedding of normalize_project_name: remove a trailing underscore
followed by exactly eight decimal digits, as the regular expression
does; otherwise return the name unchanged. -/
def normalize_project_name (name : String) : String :=
  let cs := name.data
  let n := cs.length
  if 9 ≤ n && (cs.drop (n - 9)).take 1 == ['_']
      && ((cs.drop (n - 8)).all fun c => 48 ≤ c.toNat && c.toNat ≤ 57)
  then String.mk (cs.take (n - 9))
  else name

/-- Embedding of extract_project_name_from_path, inner loop: walk the path
components in reverse, collect components that do not start with a dot and
are not the literal base names, and stop once two are collected. -/
def extractGo : List String → List String → List String
  | [], acc => acc
  | p :: rest, acc =>
    let startsWithDot : Bool :=
      match p.data with
      | c :: _ => c == '.'
      | [] => false
    let keep := !startsWithDot && !(p == "Code") && !(p == "Markdown")
    let acc2 := if keep then acc ++ [p] else acc
    if 2 ≤ acc2.length then acc2 else extractGo rest acc2

/-- Embedding of extract_project_name_from_path on the component list of
the path; the fallback is the leaf component. -/
def extract_project_name_from_path (parts : List String) : String :=
  match extractGo parts.reverse [] with
  | p :: _ => p
  | [] => (parts.getLast?).getD ""

/-! ### Tree rendering (generate_tree_structure) -/

/-- The visible entries of a directory, in iteration order, paired with
their is_dir flag: ignored directories and ignored files are dropped. -/
def collectItems (cs : List FSTree) (ignore_dirs ignore_files : List String) :
    List (FSTree × Bool) :=
  cs.filterMap fun c =>
    match c with
    | .dir m _ => if should_ignore_dir m ignore_dirs then none else some (c, true)
    | .file m _ => if should_ignore_file m ignore_files then none else some (c, false)

/-- The Python sort key (not is_dir, name.lower()) of a collected entry. -/
def itemKey (x : FSTree × Bool) : Bool × List Char := (!x.2, (strLower x.1.name).data)

/-- Strict comparison of sort keys, tuple comparison as in Python with
False before True. -/
def keyLt (a b : Bool × List Char) : Bool :=
  (!a.1 && b.1) || (a.1 == b.1 && charListLt a.2 b.2)

/-- Strict comparison of collected entries by their sort key. -/
def itemLt (a b : FSTree × Bool) : Bool := keyLt (itemKey a) (itemKey b)

/-- Insert an element into a list sorted by the strict comparison, after
every strictly smaller element: the placement a stable sort gives it. -/
def insertSorted {α : Type} (lt : α → α → Bool) (a : α) : List α → List α
  | [] => [a]
  | b :: bs => if lt b a then b :: insertSorted lt a bs else a :: b :: bs

/-- Stable insertion sort.  Since the key comparison is a total preorder,
this produces the same list as the stable sort used by Python list.sort. -/
def stableSort {α : Type} (lt : α → α → Bool) : List α → List α
  | [] => []
  | a :: as => insertSorted lt a (stableSort lt as)

/-- The sorted entry list of one directory level. -/
def sortItems (l : List (FSTree × Bool)) : List (FSTree × Bool) := stableSort itemLt l

/-- First output line of one entry: connector, name, and a trailing slash
for directories. -/
def entryHead (isLast : Bool) (x : FSTree × Bool) : String :=
  (if isLast then "└── " else "├── ") ++ x.1.name ++ (if x.2 then "/" else "")

/-- Recursive worker of generate_tree_structure.  The fuel argument is
max_depth - current_depth, so fuel 0 is the truncation case
current_depth >= max_depth, and the recursive call at depth + 1 is the
call at fuel - 1. -/
def genTreeGo (ignore_dirs ignore_files : List String) : Nat → FSTree → List String
  | 0, _ => ["[目录层次过深，已截断]"]
  | _ + 1, .file _ _ => []
  | f + 1, .dir _ cs =>
    let items := sortItems (collectItems cs ignore_dirs ignore_files)
    let n := items.length
    items.enum.flatMap fun p =>
      match p.2.2, p.2.1 with
      | true, t =>
        entryHead (p.1 == n - 1) (t, true) ::
          (genTreeGo ignore_dirs ignore_files f t).map
            (fun l => (if p.1 == n - 1 then "    " else "│   ") ++ l)
      | false, t => [entryHead (p.1 == n - 1) (t, false)]

/-- The rendered block of the entry with index p.1 among n sorted entries:
head line, then for a directory the recursively rendered child lines behind
the continuation padding. -/
def entryBlock (ignore_dirs ignore_files : List String) (f n : Nat)
    (p : Nat × (FSTree × Bool)) : List String :=
  match p.2.2, p.2.1 with
  | true, t =>
    entryHead (p.1 == n - 1) (t, true) ::
      (genTreeGo ignore_dirs ignore_files f t).map
        (fun l => (if p.1 == n - 1 then "    " else "│   ") ++ l)
  | false, t => [entryHead (p.1 == n - 1) (t, false)]

/-- Embedding of generate_tree_structure. -/
def generate_tree_structure (root : FSTree) (ignore_dirs ignore_files : List String)
    (max_depth : Nat := 10) (current_depth : Nat := 0) : List String :=
  genTreeGo ignore_dirs ignore_files (max_depth - current_depth) root

/-! ### src/code2md.py -/

/-- Embedding of the FileStats dataclass. -/
structure FileStats where
  code_files : Nat
  header_files : Nat
  project_files : Nat
  other_files : Nat
  total_size : Nat
deriving DecidableEq

/-- Embedding of ProjectInfo, restricted to the fields the claims consult:
the extracted name, the computed statistics, and the name of the target
markdown file, normalized name plus extension. -/
structure ProjectInfo where
  name : String
  stats : FileStats
  target_name : String
deriving DecidableEq

/-- Lower-cased suffix of a file name, item.suffix.lower(). -/
def extLower (fileName : String) : String := strLower (pathSuffix fileName)

/-- Whether a file name has an extension in the code or project set. -/
def qualifiesExt (cfg : Config) (fileName : String) : Bool :=
  cfg.code_extensions.contains (extLower fileName) ||
    cfg.project_extensions.contains (extLower fileName)

/-- The scanning loop of _is_project_directory over the rglob file list,
carrying the has_code_files and has_project_files flags and returning true
as soon as either is set. -/
def isProjScan (cfg : Config) : List (String × Nat) → Bool → Bool → Bool
  | [], _, _ => false
  | fp :: rest, hasCode, hasProj =>
    let ext := extLower fp.1
    let hasCode2 := if cfg.code_extensions.contains ext then true else hasCode
    let hasProj2 :=
      if !cfg.code_extensions.contains ext && cfg.project_extensions.contains ext
      then true else hasProj
    if hasCode2 || hasProj2 then true else isProjScan cfg rest hasCode2 hasProj2

/-- Embedding of _is_project_directory: scan every file under the path,
at any depth, with no directory excluded (path.rglob descends into ignored
directories too). -/
def is_project_directory (cfg : Config) (t : FSTree) : Bool :=
  isProjScan cfg (rglobFiles t) false false

mutual

/-- Embedding of _find_project_directories. -/
def find_project_directories (cfg : Config) : FSTree → List FSTree
  | .file _ _ => []
  | .dir n cs =>
    if is_project_directory cfg (.dir n cs) then [.dir n cs]
    else findInChildren cfg cs

/-- The loop of _find_project_directories over the children of a
directory that is not itself a project. -/
def findInChildren (cfg : Config) : List FSTree → List FSTree
  | [] => []
  | c :: cs =>
    (match c with
     | .file _ _ => []
     | .dir m ds =>
       if should_ignore_dir m cfg.ignore_dirs then []
       else if is_project_directory cfg (.dir m ds) then [.dir m ds]
       else find_project_directories cfg (.dir m ds)) ++ findInChildren cfg cs

end

/-- Embedding of discover_projects on the children of the existing code
base directory. -/
def discover_projects (cfg : Config) (codeDirChildren : List FSTree) : List FSTree :=
  codeDirChildren.flatMap fun item =>
    match item with
    | .file _ _ => []
    | .dir m ds =>
      if should_ignore_dir m cfg.ignore_dirs then []
      else find_project_directories cfg (.dir m ds)

/-- The statistics loop of analyze_project: every file under the project
root at any depth, filtered only by the file ignore patterns, is added to
the total size and bucketed by its lower-cased extension. -/
def analyze_stats (cfg : Config) (t : FSTree) : FileStats :=
  (rglobFiles t).foldl
    (fun stats fp =>
      if should_ignore_file fp.1 cfg.ignore_files then stats
      else
        let ext := extLower fp.1
        if cfg.code_extensions.contains ext then
          if [".h", ".hpp", ".hh"].contains ext then
            { stats with total_size := stats.total_size + fp.2,
                         header_files := stats.header_files + 1 }
          else
            { stats with total_size := stats.total_size + fp.2,
                         code_files := stats.code_files + 1 }
        else if cfg.project_extensions.contains ext then
          { stats with total_size := stats.total_size + fp.2,
                       project_files := stats.project_files + 1 }
        else
          { stats with total_size := stats.total_size + fp.2,
                       other_files := stats.other_files + 1 })
    ⟨0, 0, 0, 0, 0⟩

/-- Embedding of analyze_project: the path components of the project give
the extracted name, the tree below it gives the statistics. -/
def analyze_project (cfg : Config) (pathParts : List String) (t : FSTree) : ProjectInfo :=
  let projectName := extract_project_name_from_path pathParts
  { name := projectName,
    stats := analyze_stats cfg t,
    target_name := normalize_project_name projectName ++ ".md" }

/-- Embedding of convert_project at the orchestration boundary: the whole
analyze, render and write pipeline of one project is an Except value, and
the surrounding try block turns an exception into the return value False. -/
def convert_project (outcome : Except String Unit) : Bool :=
  match outcome with
  | .ok _ => true
  | .error _ => false

/-- Embedding of convert_all_projects: discover the projects, convert each
one in order, and return the success and total counts.  The env oracle
gives the pipeline outcome of each project. -/
def convert_all_projects (env : FSTree → Except String Unit) (cfg : Config)
    (codeDirChildren : List FSTree) : Nat × Nat :=
  let projects := discover_projects cfg codeDirChildren
  if projects.isEmpty then (0, 0)
  else
    (projects.foldl (fun acc p => if convert_project (env p) then acc + 1 else acc) 0,
     projects.length)

/-- Strict comparison of projects by name, the sort key of generate_index. -/
def projLt (p q : ProjectInfo) : Bool := charListLt p.name.data q.name.data

/-- The sorted project list of generate_index. -/
def sortProjects (l : List ProjectInfo) : List ProjectInfo := stableSort projLt l

/-- One bullet line of the index: the link text is the project name and
the link target is the normalized name plus the .md extension. -/
def project_link_line (p : ProjectInfo) : String :=
  "- [" ++ p.name ++ "](" ++ normalize_project_name p.name ++ ".md)"

/-- Embedding of generate_index: the lines written to INDEX.md, with the
generation timestamp supplied by the clock. -/
def generate_index_lines (timestamp : String) (projects : List ProjectInfo) : List String :=
  ["# Code2Markdown 项目索引", "",
   "**生成时间**: " ++ timestamp,
   "**项目总数**: " ++ Nat.repr projects.length, ""]
  ++ (if projects.isEmpty then []
      else ["## 项目列表", ""] ++ (sortProjects projects).map project_link_line ++ [""])

/-! ### Predicates written from the specification, for comparison -/

mutual

/-- Modelled from the spec: a directory contains, at some depth, a file
whose lower-cased extension is in the code or project extension set, with
subtrees whose directory name matches an ignore pattern excluded from the
search.  This is the search the claim about _is_project_directory
describes; it is compared against the embedding of the code. -/
def specContainsQualifying (cfg : Config) : FSTree → Bool
  | .file n _ => qualifiesExt cfg n
  | .dir _ cs => specContainsL cfg cs

/-- Modelled from the spec: the same search over a list of children. -/
def specContainsL (cfg : Config) : List FSTree → Bool
  | [] => false
  | c :: cs =>
    (match c with
     | .file n _ => qualifiesExt cfg n
     | .dir m _ => !should_ignore_dir m cfg.ignore_dirs && specContainsQualifying cfg c) ||
      specContainsL cfg cs

end

/-- A C0 or C1 control character: code points 00-1F and 7F-9F. -/
def isC0C1Control (c : Char) : Bool :=
  c.toNat ≤ 0x1F || (0x7F ≤ c.toNat && c.toNat ≤ 0x9F)

/-- The largest unit index among B, KB, MB, GB in which a byte count is at
least one (index 3 for everything of a gigabyte or more). -/
def unitIndex (n : Nat) : Nat :=
  if n < 1024 then 0 else if n < 1024 ^ 2 then 1 else if n < 1024 ^ 3 then 2 else 3

/-- The per-level order the tree rendering claim describes: directories
before files, and entries of the same kind in case-insensitive
alphabetical order of their names. -/
def dirsFirstThenName (a b : FSTree × Bool) : Prop :=
  (a.2 = true ∧ b.2 = false) ∨
    (a.2 = b.2 ∧ charListLt (strLower b.1.name).data (strLower a.1.name).data = false)

/-! ### Helper lemmas: the lexicographic comparison is a strict weak order -/

theorem charListLt_asymm : ∀ as bs, charListLt as bs = true → charListLt bs as = false := by
  intro as
  induction as with
  | nil =>
    intro bs h
    cases bs with
    | nil => simp [charListLt] at h
    | cons b bs => simp [charListLt]
  | cons a as ih =>
    intro bs h
    cases bs with
    | nil => simp [charListLt] at h
    | cons b bs =>
      simp only [charListLt, Bool.or_eq_true, Bool.and_eq_true, decide_eq_true_eq,
        beq_iff_eq] at h
      simp only [charListLt, Bool.or_eq_false_iff, Bool.and_eq_false_iff,
        decide_eq_false_iff_not, beq_eq_false_iff_ne, ne_eq]
      rcases h with h | ⟨he, hr⟩
      · exact ⟨by omega, Or.inl (by omega)⟩
      · exact ⟨by omega, Or.inr (ih bs hr)⟩

theorem charListLt_negtrans :
    ∀ as bs cs, charListLt bs as = false → charListLt cs bs = false →
      charListLt cs as = false := by
  intro as
  induction as with
  | nil =>
    intro bs cs _ _
    cases cs <;> simp [charListLt]
  | cons a as ih =>
    intro bs cs h1 h2
    cases bs with
    | nil => simp [charListLt] at h1
    | cons b bs =>
      cases cs with
      | nil => simp [charListLt] at h2
      | cons c cs =>
        simp only [charListLt, Bool.or_eq_false_iff, Bool.and_eq_false_iff,
          decide_eq_false_iff_not, beq_eq_false_iff_ne, ne_eq] at h1 h2 ⊢
        obtain ⟨hba, hb2⟩ := h1
        obtain ⟨hcb, hc2⟩ := h2
        refine ⟨by omega, ?_⟩
        by_cases hca : c.toNat = a.toNat
        · rcases hb2 with h | h
          · exact absurd (by omega : b.toNat = a.toNat) h
          · rcases hc2 with h2b | h2b
            · exact absurd (by omega : c.toNat = b.toNat) h2b
            · exact Or.inr (ih bs cs h h2b)
        · exact Or.inl hca

theorem keyLt_asymm : ∀ a b, keyLt a b = true → keyLt b a = false := by
  rintro ⟨xa, la⟩ ⟨xb, lb⟩ h
  cases xa <;> cases xb <;> simp [keyLt] at h ⊢ <;>
    exact charListLt_asymm la lb h

theorem keyLt_negtrans :
    ∀ a b c, keyLt b a = false → keyLt c b = false → keyLt c a = false := by
  rintro ⟨xa, la⟩ ⟨xb, lb⟩ ⟨xc, lc⟩ h1 h2
  cases xa <;> cases xb <;> cases xc <;> simp [keyLt] at h1 h2 ⊢ <;>
    exact charListLt_negtrans la lb lc h1 h2

theorem itemLt_asymm (a b : FSTree × Bool) (h : itemLt a b = true) : itemLt b a = false :=
  keyLt_asymm _ _ h

theorem itemLt_negtrans (a b c : FSTree × Bool) (h1 : itemLt b a = false)
    (h2 : itemLt c b = false) : itemLt c a = false :=
  keyLt_negtrans _ _ _ h1 h2

theorem projLt_asymm (a b : ProjectInfo) (h : projLt a b = true) : projLt b a = false :=
  charListLt_asymm _ _ h

theorem projLt_negtrans (a b c : ProjectInfo) (h1 : projLt b a = false)
    (h2 : projLt c b = false) : projLt c a = false :=
  charListLt_negtrans _ _ _ h1 h2

/-! ### Helper lemmas: insertion sort is sorted -/

theorem mem_insertSorted {α : Type} (lt : α → α → Bool) (a x : α) :
    ∀ l, x ∈ insertSorted lt a l → x = a ∨ x ∈ l := by
  intro l
  induction l with
  | nil => intro h; simpa [insertSorted] using h
  | cons b bs ih =>
    intro h
    simp only [insertSorted] at h
    split at h
    · rcases List.mem_cons.mp h with h | h
      · right; exact List.mem_cons.mpr (Or.inl h)
      · rcases ih h with h | h
        · left; exact h
        · right; exact List.mem_cons.mpr (Or.inr h)
    · rcases List.mem_cons.mp h with h | h
      · left; exact h
      · right; exact h

theorem pairwise_insertSorted {α : Type} (lt : α → α → Bool)
    (asymm : ∀ u v, lt u v = true → lt v u = false)
    (negtrans : ∀ u v w, lt v u = false → lt w v = false → lt w u = false)
    (a : α) :
    ∀ l, l.Pairwise (fun u v => lt v u = false) →
      (insertSorted lt a l).Pairwise (fun u v => lt v u = false) := by
  intro l
  induction l with
  | nil => intro _; simp [insertSorted]
  | cons b bs ih =>
    intro h
    rcases List.pairwise_cons.mp h with ⟨hb, hbs⟩
    simp only [insertSorted]
    split
    · rename_i hlt
      refine List.pairwise_cons.mpr ⟨?_, ih hbs⟩
      intro x hx
      rcases mem_insertSorted lt a x bs hx with rfl | hxbs
      · exact asymm b x hlt
      · exact hb x hxbs
    · rename_i hnlt
      have hba : lt b a = false := by
        cases hcase : lt b a
        · rfl
        · exact absurd hcase hnlt
      refine List.pairwise_cons.mpr ⟨?_, h⟩
      intro x hx
      rcases List.mem_cons.mp hx with rfl | hxbs
      · exact hba
      · exact negtrans a b x hba (hb x hxbs)

theorem pairwise_stableSort {α : Type} (lt : α → α → Bool)
    (asymm : ∀ u v, lt u v = true → lt v u = false)
    (negtrans : ∀ u v w, lt v u = false → lt w v = false → lt w u = false) :
    ∀ l : List α, (stableSort lt l).Pairwise (fun u v => lt v u = false) := by
  intro l
  induction l with
  | nil => simp [stableSort]
  | cons a as ih => exact pairwise_insertSorted lt asymm negtrans a _ ih

/-! ### Helper lemmas: the project classifier scan -/

theorem isProjScan_eq_any (cfg : Config) :
    ∀ fs, isProjScan cfg fs false false = fs.any fun fp => qualifiesExt cfg fp.1 := by
  intro fs
  induction fs with
  | nil => rfl
  | cons fp rest ih =>
    by_cases hc : extLower fp.1 ∈ cfg.code_extensions <;>
      by_cases hp : extLower fp.1 ∈ cfg.project_extensions <;>
        simp [isProjScan, qualifiesExt, hc, hp, ih]

theorem is_project_iff (cfg : Config) (t : FSTree) :
    is_project_directory cfg t = true ↔
      ∃ fp ∈ rglobFiles t, qualifiesExt cfg fp.1 = true := by
  rw [is_project_directory, isProjScan_eq_any, List.any_eq_true]

/-! ### Helper lemmas: structural induction over filesystem trees -/

theorem fstree_strongInduction (P : FSTree → Prop)
    (hf : ∀ n sz, P (.file n sz))
    (hd : ∀ n cs, (∀ c ∈ cs, P c) → P (.dir n cs)) :
    ∀ t, P t := by
  have key : ∀ k t, sizeOf t ≤ k → P t := by
    intro k
    induction k with
    | zero =>
      intro t ht
      exfalso
      cases t <;> simp at ht
    | succ k ih =>
      intro t ht
      cases t with
      | file n sz => exact hf n sz
      | dir n cs =>
        refine hd n cs fun c hc => ih c ?_
        have hlt := List.sizeOf_lt_of_mem hc
        have : sizeOf (FSTree.dir n cs) = 1 + sizeOf n + sizeOf cs := by simp
        omega
  intro t
  exact key (sizeOf t) t le_rfl

theorem subtreeFiles_subset_l {c : FSTree} :
    ∀ cs, c ∈ cs → ∀ fp ∈ subtreeFiles c, fp ∈ subtreeFilesL cs := by
  intro cs
  induction cs with
  | nil => intro h; exact absurd h (List.not_mem_nil c)
  | cons d ds ih =>
    intro hc fp hfp
    rcases List.mem_cons.mp hc with rfl | hc
    · rw [subtreeFilesL]
      exact List.mem_append.mpr (Or.inl hfp)
    · rw [subtreeFilesL]
      exact List.mem_append.mpr (Or.inr (ih hc fp hfp))

theorem rglobFiles_subset_subtree (c : FSTree) : ∀ fp ∈ rglobFiles c, fp ∈ subtreeFiles c := by
  cases c with
  | file n sz => intro fp h; exact absurd h (by simp [rglobFiles])
  | dir n cs => intro fp h; exact h

theorem is_project_false_child (cfg : Config) (n : String) (cs : List FSTree)
    (h : is_project_directory cfg (.dir n cs) = false) :
    ∀ c ∈ cs, is_project_directory cfg c = false := by
  intro c hc
  cases hproj : is_project_directory cfg c
  · rfl
  · exfalso
    rcases (is_project_iff cfg c).mp hproj with ⟨fp, hfp, hq⟩
    have h1 : fp ∈ subtreeFiles c := rglobFiles_subset_subtree c fp hfp
    have h2 : fp ∈ rglobFiles (FSTree.dir n cs) := subtreeFiles_subset_l cs hc fp h1
    have hcontra : is_project_directory cfg (.dir n cs) = true :=
      (is_project_iff cfg _).mpr ⟨fp, h2, hq⟩
    rw [hcontra] at h
    exact Bool.noConfusion h

theorem findInChildren_eq_nil (cfg : Config) :
    ∀ cs, (∀ c ∈ cs, is_project_directory cfg c = false) →
      (∀ c ∈ cs, find_project_directories cfg c = []) →
      findInChildren cfg cs = [] := by
  intro cs
  induction cs with
  | nil => intro _ _; rfl
  | cons c rest ih =>
    intro hproj hfind
    have hrest : findInChildren cfg rest = [] :=
      ih (fun d hd => hproj d (List.mem_cons.mpr (Or.inr hd)))
        (fun d hd => hfind d (List.mem_cons.mpr (Or.inr hd)))
    cases c with
    | file m sz => simp [findInChildren, hrest]
    | dir m ds =>
      have hp : is_project_directory cfg (.dir m ds) = false :=
        hproj _ (List.mem_cons.mpr (Or.inl rfl))
      have hfc : find_project_directories cfg (.dir m ds) = [] :=
        hfind _ (List.mem_cons.mpr (Or.inl rfl))
      by_cases hig : should_ignore_dir m cfg.ignore_dirs = true
      · simp [findInChildren, hrest, hig]
      · simp [findInChildren, hrest, hig, hp, hfc]

theorem find_eq_filter (cfg : Config) :
    ∀ t, find_project_directories cfg t =
      if is_project_directory cfg t = true then [t] else [] := by
  apply fstree_strongInduction
  · intro n sz
    have : is_project_directory cfg (.file n sz) = false := rfl
    simp [find_project_directories, this]
  · intro n cs ih
    rw [find_project_directories]
    cases hproj : is_project_directory cfg (.dir n cs)
    · simp only [Bool.false_eq_true, if_false]
      have hchild := is_project_false_child cfg n cs hproj
      refine findInChildren_eq_nil cfg cs hchild fun c hc => ?_
      rw [ih c hc, hchild c hc]
      simp
    · simp

theorem mem_discover_iff (cfg : Config) (children : List FSTree) (t : FSTree) :
    t ∈ discover_projects cfg children ↔
      t ∈ children ∧ t.isDirNode = true ∧
        should_ignore_dir t.name cfg.ignore_dirs = false ∧
        is_project_directory cfg t = true := by
  rw [discover_projects, List.mem_flatMap]
  constructor
  · rintro ⟨c, hc, hm⟩
    cases c with
    | file m sz => exact absurd hm (by simp)
    | dir m ds =>
      by_cases hig : should_ignore_dir m cfg.ignore_dirs = true
      · simp [hig] at hm
      · have hig2 : should_ignore_dir m cfg.ignore_dirs = false := by
          cases h : should_ignore_dir m cfg.ignore_dirs
          · rfl
          · exact absurd h hig
        by_cases hproj : is_project_directory cfg (.dir m ds) = true
        · simp only [hig2, Bool.false_eq_true, if_false,
            find_eq_filter cfg (FSTree.dir m ds), hproj, if_true] at hm
          rcases List.mem_singleton.mp hm with rfl
          exact ⟨hc, rfl, hig2, hproj⟩
        · simp [hig2, find_eq_filter cfg (FSTree.dir m ds), hproj] at hm
  · rintro ⟨hmem, hdir, hig, hproj⟩
    refine ⟨t, hmem, ?_⟩
    cases t with
    | file m sz => simp [FSTree.isDirNode] at hdir
    | dir m ds =>
      simp only [FSTree.name] at hig
      simp [hig, find_eq_filter cfg (FSTree.dir m ds), hproj]

/-! ### Helper lemmas: the format_file_size loop picks the largest unit -/

theorem sizeLoopGo_spec (n : Nat) :
    sizeLoopGo 3 ⟨n, 0⟩ 0 = (⟨n, 10 * unitIndex n⟩, unitIndex n) := by
  by_cases h1 : n < 1024
  · have g1 : dyadicGe1024 ⟨n, 0⟩ = false := by
      simp only [dyadicGe1024, decide_eq_false_iff_not]
      norm_num
      omega
    simp [unitIndex, h1, sizeLoopGo, g1]
  · by_cases h2 : n < 1024 ^ 2
    · have hui : unitIndex n = 1 := by
        rw [unitIndex, if_neg h1, if_pos h2]
      have g1 : dyadicGe1024 ⟨n, 0⟩ = true := by
        simp only [dyadicGe1024, decide_eq_true_eq]
        norm_num
        omega
      have g2 : dyadicGe1024 ⟨n, 10⟩ = false := by
        simp only [dyadicGe1024, decide_eq_false_iff_not]
        norm_num at h2 ⊢
        omega
      simp [sizeLoopGo, g1, g2, dyadicDiv1024, hui]
    · by_cases h3 : n < 1024 ^ 3
      · have hui : unitIndex n = 2 := by
          rw [unitIndex, if_neg h1, if_neg h2, if_pos h3]
        have g1 : dyadicGe1024 ⟨n, 0⟩ = true := by
          simp only [dyadicGe1024, decide_eq_true_eq]
          norm_num at h2 ⊢
          omega
        have g2 : dyadicGe1024 ⟨n, 10⟩ = true := by
          simp only [dyadicGe1024, decide_eq_true_eq]
          norm_num at h2 ⊢
          omega
        have g3 : dyadicGe1024 ⟨n, 20⟩ = false := by
          simp only [dyadicGe1024, decide_eq_false_iff_not]
          norm_num at h3 ⊢
          omega
        simp [sizeLoopGo, g1, g2, g3, dyadicDiv1024, hui]
      · have hui : unitIndex n = 3 := by
          rw [unitIndex, if_neg h1, if_neg h2, if_neg h3]
        have g1 : dyadicGe1024 ⟨n, 0⟩ = true := by
          simp only [dyadicGe1024, decide_eq_true_eq]
          norm_num at h3 ⊢
          omega
        have g2 : dyadicGe1024 ⟨n, 10⟩ = true := by
          simp only [dyadicGe1024, decide_eq_true_eq]
          norm_num at h3 ⊢
          omega
        have g3 : dyadicGe1024 ⟨n, 20⟩ = true := by
          simp only [dyadicGe1024, decide_eq_true_eq]
          norm_num at h3 ⊢
          omega
        simp [sizeLoopGo, g1, g2, g3, dyadicDiv1024, hui]

theorem unitIndex_spec (n : Nat) (h : 0 < n) :
    1024 ^ unitIndex n ≤ n ∧ (unitIndex n < 3 → n < 1024 ^ (unitIndex n + 1)) := by
  rw [unitIndex]
  split
  · rename_i h1
    constructor
    · simpa using h
    · intro _
      simpa using h1
  · rename_i h1
    split
    · rename_i h2
      constructor
      · norm_num
        omega
      · intro _
        norm_num
        norm_num at h2
        omega
    · rename_i h2
      split
      · rename_i h3
        constructor
        · norm_num
          norm_num at h2
          omega
        · intro _
          norm_num
          norm_num at h3
          omega
      · rename_i h3
        constructor
        · norm_num
          norm_num at h3
          omega
        · intro hcontra
          omega

/-! ### Helper lemmas: character preservation through clean_text_content -/

theorem mem_replaceAllChar {old : Char} {new s : List Char} {c : Char}
    (h : c ∈ replaceAllChar old new s) : c ∈ new ∨ c ∈ s := by
  rw [replaceAllChar, List.mem_flatMap] at h
  rcases h with ⟨a, ha, hc⟩
  by_cases he : a == old
  · rw [if_pos he] at hc
    exact Or.inl hc
  · rw [if_neg he] at hc
    rcases List.mem_singleton.mp hc with rfl
    exact Or.inr ha

theorem foldl_replace_preserves (P : Char → Prop) :
    ∀ (table : List (Char × String)), (∀ p ∈ table, ∀ c ∈ p.2.data, P c) →
      ∀ acc, (∀ c ∈ acc, P c) →
        ∀ c ∈ table.foldl (fun acc p => replaceAllChar p.1 p.2.data acc) acc, P c := by
  intro table
  induction table with
  | nil => intro _ acc hacc c hc; exact hacc c hc
  | cons p ps ih =>
    intro htab acc hacc c hc
    rw [List.foldl_cons] at hc
    refine ih (fun q hq => htab q (List.mem_cons.mpr (Or.inr hq))) _ ?_ c hc
    intro d hd
    rcases mem_replaceAllChar hd with hnew | hold
    · exact htab p (List.mem_cons.mpr (Or.inl rfl)) d hnew
    · exact hacc d hold

theorem clean_no_stripped (s : String) :
    ∀ c ∈ (clean_text_content s).data, isStrippedChar c = false := by
  intro c hc
  rw [clean_text_content] at hc
  split at hc
  · rename_i hemp
    rw [String.isEmpty_iff] at hemp
    rw [hemp] at hc
    exact absurd hc (by simp)
  · refine foldl_replace_preserves (fun c => isStrippedChar c = false)
      replacementTable (by decide) _ ?_ c hc
    intro d hd
    rcases List.mem_filter.mp hd with ⟨_, hgood⟩
    cases hcase : isStrippedChar d
    · rfl
    · rw [hcase] at hgood
      exact absurd hgood (by simp)

theorem char_code_cases (c : Char) (hns : isStrippedChar c = false)
    (hctl : isC0C1Control c = true) : c = '\t' ∨ c = '\n' ∨ c = '\x0D' := by
  simp only [isStrippedChar, Bool.or_eq_false_iff, Bool.and_eq_false_iff,
    decide_eq_false_iff_not] at hns
  simp only [isC0C1Control, Bool.or_eq_true, Bool.and_eq_true, decide_eq_true_eq] at hctl
  have h9 : c.toNat = 9 ∨ c.toNat = 10 ∨ c.toNat = 13 := by
    rcases hns with ⟨⟨⟨ha, hb | hb⟩, hd | hd⟩, he | he⟩ <;>
      rcases hctl with h | ⟨hc1, hc2⟩ <;> omega
  have conv : ∀ m : Nat, c.toNat = m → c.val.toNat = m := fun m hm => hm
  rcases h9 with h | h | h
  · exact Or.inl (Char.ext (UInt32.ext (conv 9 h)))
  · exact Or.inr (Or.inl (Char.ext (UInt32.ext (conv 10 h))))
  · exact Or.inr (Or.inr (Char.ext (UInt32.ext (conv 13 h))))

/-! ### Helper lemmas: success counting in convert_all_projects -/

theorem foldl_convert_count (env : FSTree → Except String Unit) :
    ∀ (l : List FSTree) (acc : Nat),
      l.foldl (fun acc p => if convert_project (env p) then acc + 1 else acc) acc
        = acc + l.countP fun p => convert_project (env p) := by
  intro l
  induction l with
  | nil => intro acc; simp
  | cons p ps ih =>
    intro acc
    rw [List.foldl_cons, List.countP_cons, ih]
    by_cases hp : convert_project (env p) = true
    · simp only [hp, if_true]
      omega
    · simp [hp]

/-! ### Helper lemmas: one level of the tree rendering -/

theorem genTreeGo_dir (igD igF : List String) (f : Nat) (nm : String) (cs : List FSTree) :
    genTreeGo igD igF (f + 1) (.dir nm cs)
      = (sortItems (collectItems cs igD igF)).enum.flatMap
          (entryBlock igD igF f (sortItems (collectItems cs igD igF)).length) := by
  rw [genTreeGo]
  apply List.flatMap_congr
  intro p _
  rw [entryBlock]

theorem entryBlock_head (igD igF : List String) (f n : Nat) (i : Nat) (x : FSTree × Bool) :
    (entryBlock igD igF f n (i, x)).head? = some (entryHead (i == n - 1) x) := by
  rcases x with ⟨t, b⟩
  cases b <;> simp [entryBlock]

theorem sortItems_pairwise (l : List (FSTree × Bool)) :
    (sortItems l).Pairwise fun a b => itemLt b a = false :=
  pairwise_stableSort itemLt itemLt_asymm itemLt_negtrans l

theorem itemLe_dirsFirst (a b : FSTree × Bool) (h : itemLt b a = false) :
    dirsFirstThenName a b := by
  rcases a with ⟨ta, ba⟩
  rcases b with ⟨tb, bb⟩
  rw [dirsFirstThenName]
  cases ba <;> cases bb
  · simp only [itemLt, itemKey, keyLt, Bool.not_false, Bool.not_true, Bool.false_and,
      Bool.true_and, beq_self_eq_true, Bool.false_or] at h
    exact Or.inr ⟨rfl, h⟩
  · exfalso
    simp only [itemLt, itemKey, keyLt, Bool.not_false, Bool.not_true, Bool.true_and,
      Bool.true_or] at h
    exact Bool.noConfusion h
  · exact Or.inl ⟨rfl, rfl⟩
  · simp only [itemLt, itemKey, keyLt, Bool.not_false, Bool.not_true, Bool.true_and,
      Bool.false_and, beq_self_eq_true, Bool.false_or] at h
    exact Or.inr ⟨rfl, h⟩

theorem sortItems_ordered (l : List (FSTree × Bool)) :
    (sortItems l).Pairwise dirsFirstThenName :=
  (sortItems_pairwise l).imp fun h => itemLe_dirsFirst _ _ h

/-! ### Claim theorems -/

/-- Claim C1, counterexample: the classifier claim is false as stated.  For
the directory p whose only file x.c lies inside the ignored subtree .git,
_is_project_directory returns true, while the search the claim describes,
which excludes ignored subtrees, finds no qualifying file. -/
theorem c1_counterexample :
    is_project_directory defaultConfig
        (.dir "p" [.dir ".git" [.file "x.c" 0]]) = true ∧
      specContainsQualifying defaultConfig
        (.dir "p" [.dir ".git" [.file "x.c" 0]]) = false := by
  decide

/-- Claim C1 (amended): _is_project_directory returns true if and only if
the directory contains, at some depth, a file whose lower-cased extension
is in the code or project extension set, with NO exclusion of ignored
subtrees: rglob descends into every directory, and ignore patterns are
applied only by the discovery loops, not by the classifier. -/
theorem c1_classifier_scans_everything (cfg : Config) (t : FSTree) :
    is_project_directory cfg t = true ↔
      ∃ fp ∈ rglobFiles t, qualifiesExt cfg fp.1 = true :=
  is_project_iff cfg t

/-- Claim C2: the project directories returned by discover_projects are
exactly the non-ignored direct children of the base directory that
classify as projects.  Every returned directory therefore lies one level
below the base, within the claimed two-level bound, and a qualifying
directory nested deeper than two levels is never an element of the result:
because the classifier counts files at any depth, a child that is not a
project has no project descendants, so the deeper recursion of
_find_project_directories never contributes anything. -/
theorem c2_discovery_depth_bound (cfg : Config) (codeDirChildren : List FSTree)
    (t : FSTree) :
    t ∈ discover_projects cfg codeDirChildren ↔
      t ∈ codeDirChildren ∧ t.isDirNode = true ∧
        should_ignore_dir t.name cfg.ignore_dirs = false ∧
        is_project_directory cfg t = true :=
  mem_discover_iff cfg codeDirChildren t

/-- Claim C3, counterexample: for the projects named Alpha and Beta the
generated index lists them alphabetically, but the link targets are
Alpha.md and Beta.md, not alpha.md and beta.md: normalization only strips
a trailing date stamp and never lowercases. -/
theorem c3_counterexample :
    generate_index_lines "2026-10-12 00:00:00"
        [⟨"Beta", ⟨0, 0, 0, 0, 0⟩, "Beta.md"⟩, ⟨"Alpha", ⟨0, 0, 0, 0, 0⟩, "Alpha.md"⟩]
      = ["# Code2Markdown 项目索引", "", "**生成时间**: 2026-10-12 00:00:00",
         "**项目总数**: 2", "", "## 项目列表", "",
         "- [Alpha](Alpha.md)", "- [Beta](Beta.md)", ""] ∧
    "- [Alpha](alpha.md)" ∉
      generate_index_lines "2026-10-12 00:00:00"
        [⟨"Beta", ⟨0, 0, 0, 0, 0⟩, "Beta.md"⟩, ⟨"Alpha", ⟨0, 0, 0, 0, 0⟩, "Alpha.md"⟩] := by
  decide

/-- Claim C3 (amended): generate_index emits a single document whose bullet
list is sorted by project name and in which each link target is exactly the
normalized project name plus .md; for the projects Alpha and Beta the links
are Alpha.md and Beta.md, matching each normalized filename exactly (the
normalization preserves case). -/
theorem c3_index_sorted_links (ts : String) (ps : List ProjectInfo) :
    (sortProjects ps).Pairwise
        (fun p q => charListLt q.name.data p.name.data = false) ∧
    (ps ≠ [] → generate_index_lines ts ps
        = ["# Code2Markdown 项目索引", "", "**生成时间**: " ++ ts,
           "**项目总数**: " ++ Nat.repr ps.length, "", "## 项目列表", ""]
          ++ (sortProjects ps).map project_link_line ++ [""]) ∧
    (∀ p : ProjectInfo,
        project_link_line p
          = "- [" ++ p.name ++ "](" ++ normalize_project_name p.name ++ ".md)") ∧
    project_link_line ⟨"Alpha", ⟨0, 0, 0, 0, 0⟩, "Alpha.md"⟩ = "- [Alpha](Alpha.md)" ∧
    project_link_line ⟨"Beta", ⟨0, 0, 0, 0, 0⟩, "Beta.md"⟩ = "- [Beta](Beta.md)" := by
  refine ⟨pairwise_stableSort projLt projLt_asymm projLt_negtrans ps, ?_,
    fun p => rfl, by decide, by decide⟩
  intro hne
  have hemp : ps.isEmpty = false := by
    cases hp : ps
    · exact absurd hp hne
    · rfl
  rw [generate_index_lines, hemp]
  simp

/-- Witness for claim C3 at a concrete project list. -/
theorem c3_index_sorted_links_witness :
    ([⟨"Beta", ⟨0, 0, 0, 0, 0⟩, "Beta.md"⟩,
      ⟨"Alpha", ⟨0, 0, 0, 0, 0⟩, "Alpha.md"⟩] : List ProjectInfo) ≠ [] ∧
      generate_index_lines "t"
          [⟨"Beta", ⟨0, 0, 0, 0, 0⟩, "Beta.md"⟩, ⟨"Alpha", ⟨0, 0, 0, 0, 0⟩, "Alpha.md"⟩]
        = ["# Code2Markdown 项目索引", "", "**生成时间**: " ++ "t",
           "**项目总数**: " ++ Nat.repr
             ([⟨"Beta", ⟨0, 0, 0, 0, 0⟩, "Beta.md"⟩,
               ⟨"Alpha", ⟨0, 0, 0, 0, 0⟩, "Alpha.md"⟩] : List ProjectInfo).length,
           "", "## 项目列表", ""]
          ++ (sortProjects
                [⟨"Beta", ⟨0, 0, 0, 0, 0⟩, "Beta.md"⟩,
                 ⟨"Alpha", ⟨0, 0, 0, 0, 0⟩, "Alpha.md"⟩]).map project_link_line
          ++ [""] :=
  ⟨by decide,
    (c3_index_sorted_links "t"
      [⟨"Beta", ⟨0, 0, 0, 0, 0⟩, "Beta.md"⟩,
       ⟨"Alpha", ⟨0, 0, 0, 0, 0⟩, "Alpha.md"⟩]).2.1 (by decide)⟩

/-- Claim C4, counterexample: the carriage return U+000D is a C0 control
character other than space, tab and newline, yet clean_text_content keeps
it: the stripping ranges 00-08, 0B-0C, 0E-1F, 7F-9F skip 0D. -/
theorem c4_counterexample :
    clean_text_content "a\x0Db" = "a\x0Db" ∧
      isC0C1Control '\x0D' = true ∧
      '\x0D' ≠ ' ' ∧ '\x0D' ≠ '\t' ∧ '\x0D' ≠ '\n' ∧
      '\x0D' ∈ (clean_text_content "a\x0Db").data := by
  decide

/-- Claim C4 (amended): clean_text_content removes every C0 or C1 control
character other than tab, newline and carriage return (space is not a
control character), and applies the replacement table, whose duplicated
key keeps its last value; hence text returned by read_file_safely along
the decode path, strict or permissive, contains no C0 or C1 control
character other than tab, newline and carriage return. -/
theorem c4_clean_controls (s : String) (c : Char) :
    (c ∈ (clean_text_content s).data → isC0C1Control c = true →
        c = '\t' ∨ c = '\n' ∨ c = '\x0D') ∧
    clean_text_content "ƣ" = "函数名：" ∧
    clean_text_content "ܣ" = "功能：" ∧
    clean_text_content "ڲ" = "返回值：" ∧
    (∀ (f : FileM) (max_size : Nat), f.statSize.getD 0 ≤ max_size →
        f.openError = none →
        c ∈ (read_file_safely f max_size).content.data → isC0C1Control c = true →
          c = '\t' ∨ c = '\n' ∨ c = '\x0D') := by
  refine ⟨fun hc hctl => char_code_cases c (clean_no_stripped s c hc) hctl,
    by decide, by decide, by decide, ?_⟩
  intro f max_size hsz hopen hc hctl
  have hnotbig : ¬ max_size < f.statSize.getD 0 := by omega
  cases hfind : readEncodings.findSome? f.strictDecode with
  | some content =>
    simp only [read_file_safely, hopen, hfind, if_neg hnotbig] at hc
    exact char_code_cases c (clean_no_stripped content c hc) hctl
  | none =>
    simp only [read_file_safely, hopen, hfind, if_neg hnotbig] at hc
    exact char_code_cases c (clean_no_stripped f.lossyContent c hc) hctl

/-- Witness for claim C4: tab survives cleaning and is a control character
allowed through. -/
theorem c4_clean_controls_witness :
    '\t' ∈ (clean_text_content "A\t").data ∧ isC0C1Control '\t' = true ∧
      ('\t' = '\t' ∨ '\t' = '\n' ∨ '\t' = '\x0D') :=
  ⟨by decide, by decide, (c4_clean_controls "A\t" '\t').1 (by decide) (by decide)⟩

/-- The file oracle of the C5 witness: stat reports 2000000 bytes. -/
def oversizedFile : FileM := ⟨some 2000000, none, fun _ => none, ""⟩

/-- Claim C5: when the stat-reported size strictly exceeds the configured
maximum, read_file_safely returns the placeholder containing the too-large
notice and the formatted size, and never opens the file for content. -/
theorem c5_too_large_never_reads (f : FileM) (max_size n : Nat)
    (hstat : f.statSize = some n) (hbig : max_size < n) :
    (read_file_safely f max_size).content
        = "[文件过大 (" ++ format_file_size n ++ "), 跳过显示内容]" ∧
      (format_file_size n).data <:+: (read_file_safely f max_size).content.data ∧
      (read_file_safely f max_size).openedForContent = false := by
  have hr : read_file_safely f max_size =
      ⟨"[文件过大 (" ++ format_file_size n ++ "), 跳过显示内容]", false⟩ := by
    rw [read_file_safely, hstat]
    simp only [Option.getD_some]
    rw [if_pos hbig]
  refine ⟨by rw [hr], ?_, by rw [hr]⟩
  rw [hr]
  refine ⟨"[文件过大 (".data, "), 跳过显示内容]".data, ?_⟩
  simp [String.data_append]

/-- Witness for claim C5 at a concrete oversized file. -/
theorem c5_too_large_never_reads_witness :
    1048576 < 2000000 ∧ (read_file_safely oversizedFile 1048576).openedForContent = false :=
  ⟨by decide, (c5_too_large_never_reads oversizedFile 1048576 2000000 rfl (by decide)).2.2⟩

/-- Claim C6: convert_all_projects returns the pair of the success count
and the total count, where the total is the number of discovered projects,
the success count is the number of projects whose pipeline succeeded, so
the success count never exceeds the total; convert_project maps an
exception in analyze, render or write to the return value false, so every
remaining project is still processed: the success count is a count over
the whole discovered list regardless of failures. -/
theorem c6_convert_all_counts (env : FSTree → Except String Unit) (cfg : Config)
    (codeDirChildren : List FSTree) :
    (convert_all_projects env cfg codeDirChildren).2
        = (discover_projects cfg codeDirChildren).length ∧
      (convert_all_projects env cfg codeDirChildren).1
        = (discover_projects cfg codeDirChildren).countP
            (fun p => convert_project (env p)) ∧
      (convert_all_projects env cfg codeDirChildren).1
        ≤ (convert_all_projects env cfg codeDirChildren).2 ∧
      (∀ e, convert_project (Except.error e) = false) ∧
      convert_project (Except.ok ()) = true := by
  have key : convert_all_projects env cfg codeDirChildren
      = ((discover_projects cfg codeDirChildren).countP
           (fun p => convert_project (env p)),
         (discover_projects cfg codeDirChildren).length) := by
    rw [convert_all_projects]
    by_cases hemp : (discover_projects cfg codeDirChildren).isEmpty = true
    · rw [if_pos hemp]
      rw [List.isEmpty_iff] at hemp
      rw [hemp]
      rfl
    · rw [if_neg hemp, foldl_convert_count]
      simp
  rw [key]
  exact ⟨rfl, rfl, List.countP_le_length _, fun e => rfl, rfl⟩

/-- Claim C7: for a project holding exactly two .c files, one .h file, one
.json file and one .png file, none ignored, the analysis reports two code
files, one header file, one project file and one other file, with the
total size accumulated over all five. -/
theorem c7_stats_example :
    (analyze_project defaultConfig ["Code", "proj"]
        (.dir "proj" [.file "main.c" 100, .file "util.c" 200, .file "defs.h" 50,
                      .file "conf.json" 30, .file "logo.png" 400])).stats
      = ⟨2, 1, 1, 1, 780⟩ := by
  decide

/-- Claim C8: at every level of the rendered tree the sorted entry list is
ordered directories first and then case-insensitively by name, the output
of the level is the concatenation of one block per sorted entry, the first
line of the block of entry i uses the last connector exactly when
i = n - 1 and the middle connector otherwise, a directory name is suffixed
with a slash, and in particular a directory holding a subfolder A and a
file b.txt renders A/ before b.txt. -/
theorem c8_tree_order_and_connectors :
    (∀ (igD igF : List String) (nm : String) (cs : List FSTree) (f : Nat),
        (sortItems (collectItems cs igD igF)).Pairwise dirsFirstThenName ∧
        genTreeGo igD igF (f + 1) (.dir nm cs)
          = (sortItems (collectItems cs igD igF)).enum.flatMap
              (entryBlock igD igF f (sortItems (collectItems cs igD igF)).length)) ∧
    (∀ (igD igF : List String) (f n i : Nat) (x : FSTree × Bool),
        (entryBlock igD igF f n (i, x)).head? = some (entryHead (i == n - 1) x)) ∧
    (∀ (isLast : Bool) (x : FSTree × Bool),
        entryHead isLast x
          = (if isLast then "└── " else "├── ") ++ x.1.name
              ++ (if x.2 then "/" else "")) ∧
    generate_tree_structure (.dir "root" [.file "b.txt" 1, .dir "A" []])
        defaultConfig.ignore_dirs defaultConfig.ignore_files 10 0
      = ["├── A/", "└── b.txt"] :=
  ⟨fun igD igF nm cs f => ⟨sortItems_ordered _, genTreeGo_dir igD igF f nm cs⟩,
    fun igD igF f n i x => entryBlock_head igD igF f n i x,
    fun _ _ => rfl, by decide⟩

/-- Claim C9: format_file_size renders a byte count in the largest unit
among B, KB, MB, GB in which the value is at least one, with zero decimal
places at the B scale (the integer byte count) and one decimal place
otherwise (dyadicFmt1 prints exactly one digit after the dot), and renders
zero as 0 B; the four concrete example values are as claimed. -/
theorem c9_format_file_size :
    format_file_size 0 = "0 B" ∧ format_file_size 999 = "999 B" ∧
    format_file_size 1024 = "1.0 KB" ∧ format_file_size 1536 = "1.5 KB" ∧
    ∀ n : Nat, 0 < n →
      1024 ^ unitIndex n ≤ n ∧
      (unitIndex n < 3 → n < 1024 ^ (unitIndex n + 1)) ∧
      format_file_size n
        = (if unitIndex n = 0 then Nat.repr n ++ " B"
           else dyadicFmt1 ⟨n, 10 * unitIndex n⟩ ++ " "
                  ++ size_names.getD (unitIndex n) "") := by
  refine ⟨by decide, by decide, by decide, by decide, ?_⟩
  intro n hn
  obtain ⟨hlow, hhigh⟩ := unitIndex_spec n hn
  refine ⟨hlow, hhigh, ?_⟩
  rw [format_file_size, if_neg (by omega : ¬ n = 0)]
  simp only [sizeLoopGo_spec n]
  by_cases h0 : unitIndex n = 0
  · rw [h0]
    simp only [Nat.mul_zero, if_pos rfl]
    have hfl : dyadicFloor ⟨n, 0⟩ = n := by
      simp [dyadicFloor]
    rw [hfl, String.append_assoc]
    rfl
  · rw [if_neg h0, if_neg h0]

/-- Witness for claim C9 at the concrete byte count 1536. -/
theorem c9_format_file_size_witness :
    0 < 1536 ∧
      (1024 ^ unitIndex 1536 ≤ 1536 ∧
        (unitIndex 1536 < 3 → 1536 < 1024 ^ (unitIndex 1536 + 1)) ∧
        format_file_size 1536
          = (if unitIndex 1536 = 0 then Nat.repr 1536 ++ " B"
             else dyadicFmt1 ⟨1536, 10 * unitIndex 1536⟩ ++ " "
                    ++ size_names.getD (unitIndex 1536) "")) :=
  ⟨by decide, c9_format_file_size.2.2.2.2 1536 (by decide)⟩

/-- Claim C10: analyze_project filters files only through the file-name
ignore patterns and never consults the directory ignore set: a non-ignored
file inside an ignored directory is still counted, in exactly one bucket,
and its size enters the total, while the tree renderer excludes the
ignored directory entirely from its listing of the same tree. -/
theorem c10_analyze_ignores_dir_set (dn fn : String) (sz : Nat)
    (hdn : should_ignore_dir dn defaultConfig.ignore_dirs = true)
    (hfn : should_ignore_file fn defaultConfig.ignore_files = false) :
    (analyze_stats defaultConfig (.dir "proj" [.dir dn [.file fn sz]])).total_size = sz ∧
    (analyze_stats defaultConfig (.dir "proj" [.dir dn [.file fn sz]])).code_files
        + (analyze_stats defaultConfig (.dir "proj" [.dir dn [.file fn sz]])).header_files
        + (analyze_stats defaultConfig (.dir "proj" [.dir dn [.file fn sz]])).project_files
        + (analyze_stats defaultConfig (.dir "proj" [.dir dn [.file fn sz]])).other_files
        = 1 ∧
    generate_tree_structure (.dir "proj" [.dir dn [.file fn sz]])
        defaultConfig.ignore_dirs defaultConfig.ignore_files 10 0 = [] := by
  have hlist : rglobFiles (FSTree.dir "proj" [FSTree.dir dn [FSTree.file fn sz]])
      = [(fn, sz)] := rfl
  refine ⟨?_, ?_, ?_⟩
  · rw [analyze_stats, hlist]
    simp only [List.foldl_cons, List.foldl_nil, hfn, Bool.false_eq_true, if_false]
    split_ifs <;> simp
  · rw [analyze_stats, hlist]
    simp only [List.foldl_cons, List.foldl_nil, hfn, Bool.false_eq_true, if_false]
    split_ifs <;> simp
  · show genTreeGo defaultConfig.ignore_dirs defaultConfig.ignore_files (9 + 1)
      (.dir "proj" [.dir dn [.file fn sz]]) = []
    rw [genTreeGo_dir]
    have hcol : collectItems [FSTree.dir dn [FSTree.file fn sz]]
        defaultConfig.ignore_dirs defaultConfig.ignore_files = [] := by
      rw [collectItems]
      simp [hdn]
    rw [hcol]
    rfl

/-- Witness for claim C10: a code file inside node_modules still counts. -/
theorem c10_analyze_ignores_dir_set_witness :
    should_ignore_dir "node_modules" defaultConfig.ignore_dirs = true ∧
      should_ignore_file "a.c" defaultConfig.ignore_files = false ∧
      (analyze_stats defaultConfig
          (.dir "proj" [.dir "node_modules" [.file "a.c" 123]])).total_size = 123 :=
  ⟨by decide, by decide,
    (c10_analyze_ignores_dir_set "node_modules" "a.c" 123 (by decide) (by decide)).1⟩
